import Mathlib

/-!
Verification of the job-scan pipeline (src/job_scan.py): shallow embedding
of the text canonicalizer, location/remote filter, relevance scorer,
deduplicator, trend extractor and the Adzuna listing normalizer, with
theorems settling the specification's claims about them.

Python strings are modelled as Lean `String`/`List Char`; Python integers as
`Nat` (every quantity in the scorer is non-negative); Python dict/str/None
values reaching the normalizer as the inductive `PyVal`; a Python expression
that can raise `AttributeError` as `Except Unit`.
-/

/-! ## Text canonicalizer: `clean_text` (src/job_scan.py lines 30-34)

`clean_text` lowercases, replaces every character outside the regex class
`[a-z0-9\s/+-]` by a space, collapses whitespace runs (`\s+`) to one space,
and strips leading/trailing whitespace. Characters are compared through
their code points (`Char.toNat`). -/

/-- The whitespace class of Python's `re` module (`\s`) / `str.strip`:
space, tab, newline, vertical tab, form feed, carriage return, the file
separators 28-31, next line 133, no-break space 160, ogham space 5760,
the en/em spaces 8192-8202, line/paragraph separators 8232/8233, narrow
no-break space 8239, medium mathematical space 8287, ideographic space
12288. -/
def pyIsSpace (c : Char) : Bool :=
  c.toNat = 32 || c.toNat = 9 || c.toNat = 10 || c.toNat = 11 ||
  c.toNat = 12 || c.toNat = 13 || (28 ≤ c.toNat && c.toNat ≤ 31) ||
  c.toNat = 133 || c.toNat = 160 || c.toNat = 5760 ||
  (8192 ≤ c.toNat && c.toNat ≤ 8202) || c.toNat = 8232 || c.toNat = 8233 ||
  c.toNat = 8239 || c.toNat = 8287 || c.toNat = 12288

/-- The non-whitespace characters the regex `[^a-z0-9\s/+-]` keeps:
`a`-`z` (97-122), `0`-`9` (48-57), `/` (47), `+` (43), `-` (45). -/
def isCanonChar (c : Char) : Bool :=
  (97 ≤ c.toNat && c.toNat ≤ 122) || (48 ≤ c.toNat && c.toNat ≤ 57) ||
  c.toNat = 47 || c.toNat = 43 || c.toNat = 45

/-- A character the substitution `re.sub(r"[^a-z0-9\s/+-]", " ", s)` leaves
in place. -/
def keepChar (c : Char) : Bool := isCanonChar c || pyIsSpace c

/-- ASCII lowercasing, as `str.lower` acts on the characters that matter
here (every non-ASCII character is replaced by a space in the next step). -/
def toLowerChar (c : Char) : Char :=
  if 65 ≤ c.toNat ∧ c.toNat ≤ 90 then Char.ofNat (c.toNat + 32) else c

/-- One character of `re.sub(r"[^a-z0-9\s/+-]", " ", s)`. -/
def maskChar (c : Char) : Char := if keepChar c then c else ' '

/-- `re.sub(r"\s+", " ", s)`: each maximal whitespace run becomes one space.
The flag records whether we are inside a run whose space is already
emitted. -/
def collapseWs : List Char → Bool → List Char
  | [], _ => []
  | c :: r, b =>
    if pyIsSpace c then
      if b then collapseWs r true else ' ' :: collapseWs r true
    else c :: collapseWs r false

/-- Remove trailing whitespace (the right half of `str.strip`). -/
def dropTrailWs : List Char → List Char
  | [] => []
  | c :: r =>
    if (dropTrailWs r).isEmpty then (if pyIsSpace c then [] else [c])
    else c :: dropTrailWs r

/-- `str.strip()`: drop leading and trailing whitespace. -/
def pyStrip (l : List Char) : List Char :=
  dropTrailWs (l.dropWhile pyIsSpace)

/-- `str.strip()` on a `String`. -/
def pyStripStr (s : String) : String := ⟨pyStrip s.data⟩

/-- `clean_text` (src/job_scan.py lines 30-34): lowercase, replace characters
outside `[a-z0-9\s/+-]` by spaces, collapse whitespace runs, strip. -/
def clean_text (s : String) : String :=
  ⟨pyStrip (collapseWs ((s.data.map toLowerChar).map maskChar) false)⟩

example : clean_text "Hello,  World!" = "hello world" := by rfl
example : clean_text "  QA / SDET - Remote!!" = "qa / sdet - remote" := by rfl
example : clean_text "" = "" := by rfl

/-! ## Substring membership: Python's `needle in haystack` -/

/-- `needle` occurs at the very start of `hay`. -/
def runAt : List Char → List Char → Bool
  | [], _ => true
  | _ :: _, [] => false
  | a :: as, b :: bs => a = b && runAt as bs

/-- `needle` occurs contiguously somewhere in `hay`. -/
def hasRun (needle : List Char) : List Char → Bool
  | [] => runAt needle []
  | c :: r => runAt needle (c :: r) || hasRun needle r

/-- Python's substring test `needle in hay`. -/
def pyContains (hay needle : String) : Bool := hasRun needle.data hay.data

/-- Python's `s.lower()` on the strings compared here (ASCII). -/
def pyLowerStr (s : String) : String := ⟨s.data.map toLowerChar⟩

example : pyContains "work from home ok" "wfh" = false := by rfl
example : pyContains "best wfh job" "wfh" = true := by rfl
example : pyContains "x" "" = true := by rfl

/-! ## Data model

A listing as the pipeline sees it after normalization: the six primary
string fields, the `_matched_locations` entry the filter adds, and the
`score`/`label` entries the scorer adds (absent until the stage that writes
them runs, hence `Option`). -/

structure Job where
  source : String := ""
  title : String := ""
  company : String := ""
  location : String := ""
  desc : String := ""
  link : String := ""
  matched_locations : Option (List String) := none
  score : Option Nat := none
  label : Option String := none
deriving DecidableEq, Repr

/-- The skill/domain profile loaded from `profile.yaml` (`PROFILE`):
`skills.core`, `skills.secondary`, `domains`, each a list of strings,
missing sections already defaulted to `[]`. -/
structure Profile where
  core : List String := []
  secondary : List String := []
  domains : List String := []
deriving DecidableEq, Repr

/-! ## Location/remote filter (src/job_scan.py lines 17-21, 36-43, 118-133) -/

/-- `TARGET_CITIES` (src/job_scan.py lines 18-20). -/
def TARGET_CITIES : List String :=
  ["gandhinagar", "nadiad", "anand", "surat", "pune", "nashik"]

/-- `REMOTE_KEYWORDS` (src/job_scan.py line 21). -/
def REMOTE_KEYWORDS : List String :=
  ["remote", "work from home", "wfh", "work-from-home", "anywhere"]

/-- `is_remote_text` (lines 36-38): some remote keyword occurs in the
canonicalized text. -/
def is_remote_text (text : String) : Bool :=
  REMOTE_KEYWORDS.any fun k => pyContains (clean_text text) k

/-- `city_matches` (lines 40-43): the target cities occurring in the
canonicalized text, in configured order. -/
def city_matches (text : String) : List String :=
  TARGET_CITIES.filter fun c => pyContains (clean_text text) c

/-- The loop body of `filter_for_targets` (lines 120-132) for one listing:
`some` of the listing with `_matched_locations` set when it is kept, `none`
when it is dropped. `city_matches(loc) or city_matches(desc)` is Python's
`or`: the second list is used only when the first is empty. -/
def filterOne (j : Job) : Option Job :=
  if is_remote_text j.location || is_remote_text j.desc then
    some { j with matched_locations := some ["remote"] }
  else
    let matched :=
      if (city_matches j.location).isEmpty then city_matches j.desc
      else city_matches j.location
    if matched.isEmpty then none
    else some { j with matched_locations := some matched }

/-- `filter_for_targets` (lines 118-133). -/
def filter_for_targets (jobs : List Job) : List Job :=
  jobs.filterMap filterOne

/-! ## Relevance scorer: `score_job` (src/job_scan.py lines 91-116) -/

/-- The fixed title-relevance keyword set (line 95). -/
def titleKeywords : List String :=
  ["qa", "quality", "test", "tester", "sdet", "automation"]

/-- The label ladder of lines 113-115. -/
def labelOf (n : Nat) : String :=
  if 75 ≤ n then "Excellent"
  else if 60 ≤ n then "Good"
  else if 40 ≤ n then "Potential"
  else "Discard"

/-- `score_job` (lines 91-116): canonicalize title+desc+company, +10 once if
any title keyword occurs, +6 per core skill and +3 per secondary skill
(that sum capped at 40), +5 per domain, total capped at 100; then label. -/
def score_job (p : Profile) (j : Job) : Job :=
  let text := clean_text (j.title ++ " " ++ j.desc ++ " " ++ j.company)
  let score0 : Nat :=
    if titleKeywords.any (fun k => pyContains text k) then 10 else 0
  let skillCore :=
    p.core.foldl (fun acc s => if pyContains text (pyLowerStr s) then acc + 6 else acc) 0
  let skillAll :=
    p.secondary.foldl
      (fun acc s => if pyContains text (pyLowerStr s) then acc + 3 else acc) skillCore
  let score1 := score0 + min skillAll 40
  let score2 :=
    p.domains.foldl
      (fun acc d => if pyContains text (pyLowerStr d) then acc + 5 else acc) score1
  let fin := min score2 100
  { j with score := some fin, label := some (labelOf fin) }

/-! ## Deduplicator (src/job_scan.py lines 163-171) -/

/-- The dedupe key of line 167: `j.get("link") or j.get("title","") +
j.get("company","")` — the link when truthy, else title concatenated with
company. -/
def jobKey (j : Job) : String :=
  if j.link = "" then j.title ++ j.company else j.link

/-- The dedupe loop of lines 164-171, with the `seen` set carried as the
list of keys already inserted. -/
def dedupe : List Job → List String → List Job
  | [], _ => []
  | j :: rest, seen =>
    if seen.contains (jobKey j) then dedupe rest seen
    else j :: dedupe rest (jobKey j :: seen)

/-! ## Trend extractor: `extract_trends` (src/job_scan.py lines 136-147) -/

/-- One entry of the trend list: `{"term": ..., "count": ...}`. -/
structure TrendTerm where
  term : String
  count : Nat
deriving DecidableEq, Repr

/-- The document list of line 137: one canonicalized `title + " " + desc`
per listing whose description is non-blank (`.strip()` truthy). -/
def docsOf (jobs : List Job) : List String :=
  (jobs.filter fun j => pyStripStr j.desc ≠ "").map
    fun j => clean_text (j.title ++ " " ++ j.desc)

/-- `extract_trends` (lines 136-147). The `CountVectorizer` / `argsort` /
top-25 stage is an external library collaborator; it enters as the
parameter `countTerms`, mapping the document list to the ranked
`{term, count}` list. The parts translated from the source are the document
construction, the empty-corpus early return, and the high-demand filter
`count >= len(docs) * 0.2` (the literal `0.2` read exactly, as the
rational 1/5). -/
def extract_trends (countTerms : List String → List TrendTerm)
    (jobs : List Job) : List TrendTerm × List TrendTerm :=
  let docs := docsOf jobs
  if docs.isEmpty then ([], [])
  else
    let trends := countTerms docs
    (trends,
     trends.filter fun t => decide (((docs.length : ℚ) * 0.2) ≤ (t.count : ℚ)))

/-! ## Listing normalizer (src/job_scan.py lines 78-86)

The raw Adzuna record is a JSON-like mapping whose values may be strings,
nested mappings or null. `PyVal` models those values; a raw record is a
key-value list with distinct keys. `dict.get` on a mapping is total;
attribute access `.get` on a string or `None` raises `AttributeError`,
modelled as `Except.error ()`. -/

inductive PyVal where
  | vNone
  | vStr (s : String)
  | vDict (entries : List (String × PyVal))

/-- Python truthiness of the values that occur here: `None`, the empty
string and the empty dict are falsy. -/
def pyTruthy : PyVal → Bool
  | .vNone => false
  | .vStr s => s ≠ ""
  | .vDict es => !es.isEmpty

/-- Python's `a or b`. -/
def pyOrV (a b : PyVal) : PyVal := if pyTruthy a then a else b

/-- `it.get(k, dflt)` on the raw record (a genuine dict). -/
def pyMapGet (it : List (String × PyVal)) (k : String) (dflt : PyVal) : PyVal :=
  match it.find? (fun e => e.1 = k) with
  | some e => e.2
  | none => dflt

/-- `v.get(k, dflt)` where `v` is an arbitrary value: total on dicts,
`AttributeError` on strings and `None`. -/
def pyAttrGet (v : PyVal) (k : String) (dflt : PyVal) : Except Unit PyVal :=
  match v with
  | .vDict es =>
    match es.find? (fun e => e.1 = k) with
    | some e => .ok e.2
    | none => .ok dflt
  | _ => .error ()

/-- The normalized record the Adzuna fetcher builds (lines 79-86); the field
values stay `PyVal` because the location line can produce a non-string. -/
structure AdzunaJob where
  source : String
  title : PyVal
  company : PyVal
  location : PyVal
  desc : PyVal
  link : PyVal

/-- The dict literal of lines 79-86, one raw record `it` to one normalized
record:
`title`: `it.get("title", "") or ""`;
`company`: `(it.get("company") or {}).get("display_name", "") or ""`;
`location`: `it.get("location", {}).get("display_name", "") or it.get("location", "")`;
`desc`: `it.get("description", "") or ""`;
`link`: `it.get("redirect_url", "") or it.get("link", "")`.
The two attribute `.get` calls can raise; the company one is evaluated
first. -/
def normalize_adzuna (it : List (String × PyVal)) : Except Unit AdzunaJob :=
  match pyAttrGet (pyOrV (pyMapGet it "company" .vNone) (.vDict [])) "display_name" (.vStr "") with
  | .error e => .error e
  | .ok cdn =>
    match pyAttrGet (pyMapGet it "location" (.vDict [])) "display_name" (.vStr "") with
    | .error e => .error e
    | .ok ldn =>
      .ok { source := "adzuna"
            title := pyOrV (pyMapGet it "title" (.vStr "")) (.vStr "")
            company := pyOrV cdn (.vStr "")
            location := pyOrV ldn (pyMapGet it "location" (.vStr ""))
            desc := pyOrV (pyMapGet it "description" (.vStr "")) (.vStr "")
            link := pyOrV (pyMapGet it "redirect_url" (.vStr "")) (pyMapGet it "link" (.vStr "")) }

/-- A raw record has the key. -/
def hasKey (it : List (String × PyVal)) (k : String) : Bool :=
  (it.find? (fun e => e.1 = k)).isSome

/-- The company value shapes the normalizer survives: anything falsy
(replaced by `{}` before the attribute access) or a dict. -/
def companyShapeOk (v : PyVal) : Bool :=
  match v with
  | .vDict _ => true
  | v => !pyTruthy v

/-- The location value shapes the normalizer survives: only a dict (the
default `{}` when the key is absent, or a present dict value) — the
attribute access happens before any truthiness fallback. -/
def locationShapeOk (v : PyVal) : Bool :=
  match v with
  | .vDict _ => true
  | _ => false

/-! ## The deduplicator's specification-side description

C5 compares `dedupe` with the spec sentence "retain only the first
occurrence of each distinct key, order preserved", written directly: keep
the head, drop every later listing with the head's key, recurse. -/

def firstOccurrences : List Job → List Job
  | [] => []
  | j :: rest =>
    j :: firstOccurrences (rest.filter fun x => jobKey x ≠ jobKey j)
termination_by l => l.length
decreasing_by
  simp only [List.length_cons]
  exact Nat.lt_succ_of_le (List.length_filter_le _ _)

/-! ## The scorer's specification-side quantities

The spec names `title_bonus`, `skill_score` and `domain_bonus`; here they
are written as weighted match counts, to be compared with the accumulator
loops of `score_job`. -/

/-- The canonicalized text `score_job` matches against. -/
def scoreText (j : Job) : String :=
  clean_text (j.title ++ " " ++ j.desc ++ " " ++ j.company)

/-- `title_bonus`: 10 when any fixed keyword occurs, else 0. -/
def titleBonus (text : String) : Nat :=
  if titleKeywords.any (fun k => pyContains text k) then 10 else 0

/-- `skill_score` before its cap: 6 per matching core skill plus 3 per
matching secondary skill. -/
def skillScore (p : Profile) (text : String) : Nat :=
  6 * p.core.countP (fun s => pyContains text (pyLowerStr s)) +
  3 * p.secondary.countP (fun s => pyContains text (pyLowerStr s))

/-- `domain_bonus`: 5 per matching domain. -/
def domainBonus (p : Profile) (text : String) : Nat :=
  5 * p.domains.countP (fun d => pyContains text (pyLowerStr d))

/-! ## Helper lemmas -/

theorem foldl_add_if_eq_countP (l : List String) (q : String → Bool) (w a : Nat) :
    l.foldl (fun acc s => if q s then acc + w else acc) a = a + w * l.countP q := by
  induction l generalizing a with
  | nil => simp
  | cons s t ih =>
    by_cases h : q s
    · simp [h, ih, List.countP_cons]
      ring
    · simp [h, ih, List.countP_cons]

/-- The exact meaning of the high-demand threshold `count >= len(docs) * 0.2`
over the rationals. -/
theorem ratThreshold_iff (n c : Nat) : ((n : ℚ) * 0.2 ≤ (c : ℚ)) ↔ n ≤ 5 * c := by
  rw [show (0.2 : ℚ) = 1 / 5 by norm_num, mul_one_div,
    div_le_iff₀ (by norm_num : (0 : ℚ) < 5)]
  norm_cast
  constructor <;> intro h <;> omega

theorem score_job_score_eq (p : Profile) (j : Job) :
    (score_job p j).score =
      some (min (titleBonus (scoreText j) + min (skillScore p (scoreText j)) 40 +
        domainBonus p (scoreText j)) 100) := by
  simp only [score_job, foldl_add_if_eq_countP, titleBonus, skillScore, domainBonus,
    scoreText, Option.some.injEq]
  omega

/-! ## Claim theorems -/

/-- C2. For every listing and profile, the computed score equals
clamp(title_bonus + skill_score + domain_bonus, 0, 100): title_bonus is a
one-shot 10 (never more, however many keywords hit), skill_score is 6 per
core and 3 per secondary match and is capped at 40 before being added,
domain_bonus is 5 per domain match with no cap of its own. Every addend is
a natural number, so the lower clamp at 0 is the identity and the clamp is
`min · 100`. -/
theorem C2_score_formula (p : Profile) (j : Job) :
    (score_job p j).score =
      some (min (titleBonus (scoreText j) + min (skillScore p (scoreText j)) 40 +
        domainBonus p (scoreText j)) 100) ∧
    titleBonus (scoreText j) ≤ 10 := by
  refine ⟨score_job_score_eq p j, ?_⟩
  unfold titleBonus
  split <;> omega

set_option maxRecDepth 8000 in
/-- C2 witness: the spec's own worked example — title "Senior SDET -
Automation", core skill "Selenium", domain "Agile" — scores
10 + min 6 40 + 5 = 21. -/
theorem C2_score_formula_witness :
    (score_job { core := ["Selenium"], secondary := [], domains := ["Agile"] }
        { title := "Senior SDET - Automation",
          desc := "needs Selenium and Agile" : Job }).score = some 21 := by
  rw [(C2_score_formula
    { core := ["Selenium"], secondary := [], domains := ["Agile"] }
    { title := "Senior SDET - Automation", desc := "needs Selenium and Agile" }).1]
  decide

/-- C3. Every scored listing's score is an integer in [0, 100] (it is a
natural number, so only the upper bound needs stating) and its label is
`labelOf` of that score; and `labelOf` maps every integer in [0, 100] to
exactly one of the four labels, with the inclusive lower thresholds 75, 60
and 40. -/
theorem C3_score_range_label_partition :
    (∀ (p : Profile) (j : Job), ∃ n, (score_job p j).score = some n ∧ n ≤ 100 ∧
      (score_job p j).label = some (labelOf n)) ∧
    (∀ n : Nat, n ≤ 100 →
      ((labelOf n = "Excellent" ∨ labelOf n = "Good" ∨ labelOf n = "Potential" ∨
          labelOf n = "Discard") ∧
        (labelOf n = "Excellent" ↔ 75 ≤ n) ∧
        (labelOf n = "Good" ↔ 60 ≤ n ∧ n < 75) ∧
        (labelOf n = "Potential" ↔ 40 ≤ n ∧ n < 60) ∧
        (labelOf n = "Discard" ↔ n < 40))) := by
  constructor
  · intro p j
    exact ⟨_, rfl, Nat.min_le_right _ _, rfl⟩
  · intro n hn
    unfold labelOf
    refine ⟨?_, ?_, ?_, ?_, ?_⟩ <;> split_ifs <;> simp_all <;> omega

/-- C3 witness: at score 74 the partition places the label at "Good". -/
theorem C3_score_range_label_partition_witness :
    labelOf 74 = "Good" ∧ (labelOf 74 = "Excellent" ↔ 75 ≤ 74) := by
  have h := C3_score_range_label_partition.2 74 (by omega)
  exact ⟨(h.2.2.1).mpr (by omega), h.2.1⟩

/-- C10. Scoring writes only `score` and `label`: every other field of the
returned listing — source, title, company, location, description, link and
the filter's matched locations — is exactly the input's. -/
theorem C10_score_frame (p : Profile) (j : Job) :
    (score_job p j).source = j.source ∧
    (score_job p j).title = j.title ∧
    (score_job p j).company = j.company ∧
    (score_job p j).location = j.location ∧
    (score_job p j).desc = j.desc ∧
    (score_job p j).link = j.link ∧
    (score_job p j).matched_locations = j.matched_locations :=
  ⟨rfl, rfl, rfl, rfl, rfl, rfl, rfl⟩

/-- C7. Whenever a remote keyword occurs in the canonicalized location or
description, the filter keeps the listing with `matched_locations =
["remote"]` — no city list is ever recorded, whatever cities the texts
contain — and the kept listing appears in `filter_for_targets` of any
input list containing it. -/
theorem C7_remote_priority (jobs : List Job) (j : Job) (hmem : j ∈ jobs)
    (hrem : (is_remote_text j.location || is_remote_text j.desc) = true) :
    filterOne j = some { j with matched_locations := some ["remote"] } ∧
    { j with matched_locations := some ["remote"] } ∈ filter_for_targets jobs := by
  have h1 : filterOne j = some { j with matched_locations := some ["remote"] } := by
    unfold filterOne
    simp [hrem]
  exact ⟨h1, List.mem_filterMap.mpr ⟨j, hmem, h1⟩⟩

/-- The spec's filtering example: location "Remote, India", description
also naming the target city Pune. -/
def remoteJobExample : Job :=
  { location := "Remote, India", desc := "Great job in Pune" }

set_option maxRecDepth 8000 in
/-- C7 witness: the spec's example is kept with `["remote"]`, although its
description contains the target city "pune". -/
theorem C7_remote_priority_witness :
    filterOne remoteJobExample =
      some { remoteJobExample with matched_locations := some ["remote"] } ∧
    { remoteJobExample with matched_locations := some ["remote"] } ∈
      filter_for_targets [remoteJobExample] :=
  C7_remote_priority [remoteJobExample] remoteJobExample
    (List.mem_singleton.mpr rfl) (by decide)

theorem dedupe_filter_seen (l : List Job) : ∀ seen : List String,
    dedupe l seen = firstOccurrences (l.filter fun x => !(seen.contains (jobKey x))) := by
  induction l with
  | nil => intro seen; simp [dedupe, firstOccurrences]
  | cons j rest ih =>
    intro seen
    by_cases hmem : jobKey j ∈ seen
    · rw [show dedupe (j :: rest) seen = dedupe rest seen from by simp [dedupe, hmem], ih]
      congr 1
      simp [List.filter_cons, hmem]
    · rw [show dedupe (j :: rest) seen = j :: dedupe rest (jobKey j :: seen) from by
        simp [dedupe, hmem]]
      rw [show (j :: rest).filter (fun x => !(seen.contains (jobKey x))) =
          j :: rest.filter (fun x => !(seen.contains (jobKey x))) from by
        simp [List.filter_cons, hmem]]
      rw [firstOccurrences, ih]
      congr 1
      rw [List.filter_filter]
      congr 1
      apply List.filter_congr
      intro x _
      by_cases h1 : jobKey x = jobKey j <;> by_cases h2 : jobKey x ∈ seen <;>
        simp_all [List.contains_cons]

theorem dedupe_sublist (l : List Job) : ∀ seen : List String,
    List.Sublist (dedupe l seen) l := by
  induction l with
  | nil => intro seen; simp [dedupe]
  | cons j rest ih =>
    intro seen
    by_cases hmem : jobKey j ∈ seen
    · rw [show dedupe (j :: rest) seen = dedupe rest seen from by simp [dedupe, hmem]]
      exact (ih seen).cons j
    · rw [show dedupe (j :: rest) seen = j :: dedupe rest (jobKey j :: seen) from by
        simp [dedupe, hmem]]
      exact (ih _).cons₂ j

/-- C5. The dedupe loop of `main`, run with the empty `seen` set, returns
exactly the first occurrence of each distinct key (`firstOccurrences`, the
spec's description written directly, with key = link when non-empty, else
title ++ company), and the output is a sublist of the input, so the
surviving listings keep their relative input order. -/
theorem C5_dedupe_first_occurrence (jobs : List Job) :
    dedupe jobs [] = firstOccurrences jobs ∧
    List.Sublist (dedupe jobs []) jobs := by
  refine ⟨?_, dedupe_sublist jobs []⟩
  rw [dedupe_filter_seen jobs []]
  congr 1
  simp

/-- C8. When every listing's description is blank (in particular on the
empty corpus), the document list is empty and trend extraction returns the
pair of empty lists, for every counting collaborator — it cannot fail. -/
theorem C8_empty_corpus (countTerms : List String → List TrendTerm)
    (jobs : List Job) (h : ∀ j ∈ jobs, pyStripStr j.desc = "") :
    extract_trends countTerms jobs = ([], []) := by
  have hd : docsOf jobs = [] := by
    unfold docsOf
    rw [List.filter_eq_nil_iff.mpr fun j hj => by simp [h j hj]]
    rfl
  simp [extract_trends, hd]

/-- C8 witness: the empty corpus. -/
theorem C8_empty_corpus_witness :
    extract_trends (fun _ => []) [] = ([], []) :=
  C8_empty_corpus (fun _ => []) [] (by simp)

/-- C6. The trend extractor's document list consists exactly of (the
canonicalized title+description of) the listings with a non-blank
description; and a term of the returned trend list is in the high-demand
list exactly when its count is at least `0.2` (exactly the rational 1/5)
times the document count — the boundary is inclusive, the comparison
being `≤`. Stated for every counting collaborator `countTerms`. -/
theorem C6_high_demand_threshold (countTerms : List String → List TrendTerm)
    (jobs : List Job) :
    (∀ t : TrendTerm, t ∈ (extract_trends countTerms jobs).2 ↔
      t ∈ (extract_trends countTerms jobs).1 ∧
      ((docsOf jobs).length : ℚ) * 0.2 ≤ (t.count : ℚ)) ∧
    (∀ d : String, d ∈ docsOf jobs ↔
      ∃ j, j ∈ jobs ∧ pyStripStr j.desc ≠ "" ∧
        d = clean_text (j.title ++ " " ++ j.desc)) := by
  constructor
  · intro t
    unfold extract_trends
    by_cases hd : (docsOf jobs).isEmpty
    · simp [hd]
    · simp [hd, List.mem_filter, decide_eq_true_iff]
  · intro d
    simp only [docsOf, List.mem_map, List.mem_filter, decide_eq_true_iff]
    constructor
    · rintro ⟨j, ⟨hj, hne⟩, heq⟩
      exact ⟨j, hj, hne, heq.symm⟩
    · rintro ⟨j, hj, hne, hdq⟩
      exact ⟨j, ⟨hj, hne⟩, hdq.symm⟩

/-- Five listings with the same non-blank description: a five-document
corpus. -/
def trendJobsExample : List Job :=
  List.replicate 5 { desc := "selenium engineer" }

/-- A counting collaborator putting "selenium" in the trend list with
count 1 — exactly 0.2 times the five documents. -/
def trendCountExample : List String → List TrendTerm :=
  fun _ => [{ term := "selenium", count := 1 }]

set_option maxRecDepth 8000 in
/-- C6 witness: the exact boundary. With five documents a count of one
(= 5 × 0.2) is enough: the term is high-demand. -/
theorem C6_high_demand_threshold_witness :
    ({ term := "selenium", count := 1 } : TrendTerm) ∈
      (extract_trends trendCountExample trendJobsExample).2 := by
  refine ((C6_high_demand_threshold trendCountExample trendJobsExample).1 _).mpr
    ⟨by decide, (ratThreshold_iff _ _).mpr (by decide)⟩

/-- A listing whose location names the target city Pune and whose
description names only the different target city Surat. -/
def cityJobExample : Job := { location := "Pune", desc := "Surat office" }

set_option maxRecDepth 8000 in
/-- C1 counterexample. For `cityJobExample` the filter records
`matched_locations = ["pune"]`: "surat" is a target city occurring in the
canonicalized description, yet it is not recorded, because
`city_matches(loc) or city_matches(desc)` is Python's `or` — the
description's matches are used only when the location has none — not a
union of the two. -/
theorem C1_union_counterexample :
    filterOne cityJobExample =
      some { cityJobExample with matched_locations := some ["pune"] } ∧
    pyContains (clean_text cityJobExample.desc) "surat" = true ∧
    "surat" ∈ TARGET_CITIES ∧
    ¬ "surat" ∈ (["pune"] : List String) :=
  ⟨by decide, by decide, by decide, by decide⟩

/-- C1 (amended). For a listing that is not a remote match, the filter
keeps it exactly when some target city occurs in the canonicalized
location or description text; it records the location text's matches when
there are any and otherwise the description text's matches (not their
union); each recorded list is a sublist of `TARGET_CITIES`, hence
duplicate-free and in configured order. -/
theorem C1_city_match_fallback (j : Job)
    (hrem : (is_remote_text j.location || is_remote_text j.desc) = false) :
    (filterOne j = none ↔
      (city_matches j.location = [] ∧ city_matches j.desc = [])) ∧
    (city_matches j.location ≠ [] →
      filterOne j =
        some { j with matched_locations := some (city_matches j.location) }) ∧
    (city_matches j.location = [] → city_matches j.desc ≠ [] →
      filterOne j =
        some { j with matched_locations := some (city_matches j.desc) }) ∧
    List.Sublist (city_matches j.location) TARGET_CITIES ∧
    List.Sublist (city_matches j.desc) TARGET_CITIES := by
  have hsub : ∀ t : String, List.Sublist (city_matches t) TARGET_CITIES := by
    intro t
    unfold city_matches
    exact List.filter_sublist _
  unfold filterOne
  rw [hrem]
  by_cases h1 : (city_matches j.location).isEmpty <;>
    by_cases h2 : (city_matches j.desc).isEmpty <;>
      simp_all [List.isEmpty_iff, hsub j.location, hsub j.desc]

set_option maxRecDepth 8000 in
/-- C1 witness: a non-remote listing whose location matches a city is kept
with exactly the location text's matches. -/
theorem C1_city_match_fallback_witness :
    filterOne cityJobExample =
      some { cityJobExample with
        matched_locations := some (city_matches cityJobExample.location) } :=
  (C1_city_match_fallback cityJobExample (by decide)).2.1 (by decide)

theorem pyMapGet_of_not_hasKey (it : List (String × PyVal)) (k : String)
    (d : PyVal) (h : hasKey it k = false) : pyMapGet it k d = d := by
  unfold hasKey at h
  unfold pyMapGet
  cases hf : it.find? (fun e => e.1 = k) <;> simp [hf] at h ⊢

theorem company_attr_ok (it : List (String × PyVal))
    (hc : companyShapeOk (pyMapGet it "company" .vNone) = true) :
    ∃ cdn, pyAttrGet (pyOrV (pyMapGet it "company" .vNone) (.vDict []))
        "display_name" (.vStr "") = .ok cdn ∧
      (hasKey it "company" = false → cdn = .vStr "") ∧
      (∀ s, pyMapGet it "company" .vNone = .vDict [("display_name", .vStr s)] →
        cdn = .vStr s) := by
  cases hcv : pyMapGet it "company" .vNone with
  | vNone =>
    refine ⟨.vStr "", rfl, fun _ => rfl, fun s hs => ?_⟩
    simp at hs
  | vStr s =>
    rw [hcv] at hc
    have hs : s = "" := by
      simpa [companyShapeOk, pyTruthy] using hc
    subst hs
    refine ⟨.vStr "", rfl, fun _ => rfl, fun s hs => ?_⟩
    simp at hs
  | vDict ces =>
    have hkey : hasKey it "company" = true := by
      unfold hasKey
      unfold pyMapGet at hcv
      cases hf : it.find? (fun e => e.1 = "company") <;> simp [hf] at hcv ⊢
    cases hces : ces with
    | nil =>
      refine ⟨.vStr "", by simp [pyOrV, pyTruthy, pyAttrGet],
        fun _ => rfl, fun s hs => ?_⟩
      simp at hs
    | cons e0 tl =>
      have htru : pyTruthy (.vDict (e0 :: tl)) = true := by simp [pyTruthy]
      cases hf : (e0 :: tl).find? (fun e => e.1 = "display_name") with
      | none =>
        refine ⟨.vStr "", by simp [pyOrV, htru, pyAttrGet, hf], ?_, ?_⟩
        · intro hfalse
          simp [hkey] at hfalse
        · intro s hs
          simp only [PyVal.vDict.injEq, List.cons.injEq] at hs
          obtain ⟨h1, h2⟩ := hs
          subst h1
          subst h2
          simp at hf
      | some e =>
        refine ⟨e.2, by simp [pyOrV, htru, pyAttrGet, hf], ?_, ?_⟩
        · intro hfalse
          simp [hkey] at hfalse
        · intro s hs
          simp only [PyVal.vDict.injEq, List.cons.injEq] at hs
          obtain ⟨h1, h2⟩ := hs
          subst h1
          subst h2
          simp at hf
          rw [← hf]

theorem location_attr_ok (it : List (String × PyVal))
    (hl : locationShapeOk (pyMapGet it "location" (.vDict [])) = true) :
    ∃ ldn, pyAttrGet (pyMapGet it "location" (.vDict []))
        "display_name" (.vStr "") = .ok ldn ∧
      (hasKey it "location" = false → ldn = .vStr "") ∧
      (∀ s, pyMapGet it "location" (.vDict []) = .vDict [("display_name", .vStr s)] →
        ldn = .vStr s) := by
  cases hlv : pyMapGet it "location" (.vDict []) with
  | vNone => rw [hlv] at hl; simp [locationShapeOk] at hl
  | vStr s => rw [hlv] at hl; simp [locationShapeOk] at hl
  | vDict les =>
    have hnk : hasKey it "location" = false → les = [] := by
      intro h
      have := pyMapGet_of_not_hasKey it "location" (.vDict []) h
      rw [hlv] at this
      simpa using this.symm
    cases hf : les.find? (fun e => e.1 = "display_name") with
    | none =>
      refine ⟨.vStr "", by simp [pyAttrGet, hf], fun _ => rfl, fun s hs => ?_⟩
      simp only [PyVal.vDict.injEq] at hs
      subst hs
      simp at hf
    | some e =>
      refine ⟨e.2, by simp [pyAttrGet, hf], fun h => ?_, fun s hs => ?_⟩
      · obtain rfl := hnk h
        simp at hf
      · simp only [PyVal.vDict.injEq] at hs
        subst hs
        simp at hf
        rw [← hf]

/-- C4 counterexample. A raw record whose `company` value is a plain
non-empty string, and one whose `location` value is a plain string: in
both, normalization raises (`str` has no `.get`), against the claim that
it never fails when company/location may each be a plain string or a
nested record. -/
theorem C4_counterexample :
    normalize_adzuna [("company", .vStr "Acme")] = .error () ∧
    normalize_adzuna [("location", .vStr "Pune, India")] = .error () :=
  ⟨rfl, rfl⟩

/-- C4 (amended). Normalization never fails provided the `company` value is
falsy or a nested record and the `location` value, when the key is
present, is a nested record (a plain non-empty string in either place
raises). It then yields a record with all six fields populated, the empty
string standing in for every missing field, and a nested non-empty
`display_name` unwrapped to the flat string. -/
theorem C4_normalize_total (it : List (String × PyVal))
    (hc : companyShapeOk (pyMapGet it "company" .vNone) = true)
    (hl : locationShapeOk (pyMapGet it "location" (.vDict [])) = true) :
    ∃ jv : AdzunaJob, normalize_adzuna it = .ok jv ∧ jv.source = "adzuna" ∧
      (hasKey it "title" = false → jv.title = .vStr "") ∧
      (hasKey it "company" = false → jv.company = .vStr "") ∧
      (hasKey it "location" = false → jv.location = .vStr "") ∧
      (hasKey it "description" = false → jv.desc = .vStr "") ∧
      (hasKey it "redirect_url" = false → hasKey it "link" = false →
        jv.link = .vStr "") ∧
      (∀ s, s ≠ "" →
        pyMapGet it "company" .vNone = .vDict [("display_name", .vStr s)] →
        jv.company = .vStr s) ∧
      (∀ s, s ≠ "" →
        pyMapGet it "location" (.vDict []) = .vDict [("display_name", .vStr s)] →
        jv.location = .vStr s) := by
  obtain ⟨cdn, hcdn, hcmiss, hcwrap⟩ := company_attr_ok it hc
  obtain ⟨ldn, hldn, hlmiss, hlwrap⟩ := location_attr_ok it hl
  have hnorm : normalize_adzuna it = .ok
      { source := "adzuna",
        title := pyOrV (pyMapGet it "title" (.vStr "")) (.vStr ""),
        company := pyOrV cdn (.vStr ""),
        location := pyOrV ldn (pyMapGet it "location" (.vStr "")),
        desc := pyOrV (pyMapGet it "description" (.vStr "")) (.vStr ""),
        link := pyOrV (pyMapGet it "redirect_url" (.vStr ""))
          (pyMapGet it "link" (.vStr "")) } := by
    unfold normalize_adzuna
    rw [hcdn, hldn]
  refine ⟨_, hnorm, rfl, ?_, ?_, ?_, ?_, ?_, ?_, ?_⟩
  · intro h
    simp [pyMapGet_of_not_hasKey it "title" (.vStr "") h, pyOrV, pyTruthy]
  · intro h
    simp [hcmiss h, pyOrV, pyTruthy]
  · intro h
    simp [hlmiss h, pyMapGet_of_not_hasKey it "location" (.vStr "") h, pyOrV, pyTruthy]
  · intro h
    simp [pyMapGet_of_not_hasKey it "description" (.vStr "") h, pyOrV, pyTruthy]
  · intro h1 h2
    simp [pyMapGet_of_not_hasKey it "redirect_url" (.vStr "") h1,
      pyMapGet_of_not_hasKey it "link" (.vStr "") h2, pyOrV, pyTruthy]
  · intro s hs hdict
    simp [hcwrap s hdict, pyOrV, pyTruthy, hs]
  · intro s hs hdict
    simp [hlwrap s hdict, pyOrV, pyTruthy, hs]

/-- C4 witness: the empty raw record — every key missing — normalizes
without failure to all-empty fields. -/
theorem C4_normalize_total_witness :
    ∃ jv : AdzunaJob, normalize_adzuna [] = .ok jv ∧ jv.source = "adzuna" ∧
      (hasKey [] "title" = false → jv.title = .vStr "") ∧
      (hasKey [] "company" = false → jv.company = .vStr "") ∧
      (hasKey [] "location" = false → jv.location = .vStr "") ∧
      (hasKey [] "description" = false → jv.desc = .vStr "") ∧
      (hasKey [] "redirect_url" = false → hasKey [] "link" = false →
        jv.link = .vStr "") ∧
      (∀ s, s ≠ "" →
        pyMapGet [] "company" .vNone = .vDict [("display_name", .vStr s)] →
        jv.company = .vStr s) ∧
      (∀ s, s ≠ "" →
        pyMapGet [] "location" (.vDict []) = .vDict [("display_name", .vStr s)] →
        jv.location = .vStr s) :=
  C4_normalize_total [] rfl rfl

/-! ## Idempotence of the canonicalizer (C9)

A canonical string — every character a kept non-whitespace character or a
single separating space, no adjacent spaces, no space at either edge — is a
fixed point of every stage of `clean_text`, and `clean_text` always
produces such a string. -/

/-- The list does not start with a whitespace character. -/
def headNotWs : List Char → Bool
  | [] => true
  | c :: _ => !pyIsSpace c

/-- The list does not end with a whitespace character. -/
def lastNotWs : List Char → Bool
  | [] => true
  | [c] => !pyIsSpace c
  | _ :: c :: r => lastNotWs (c :: r)

/-- No two adjacent whitespace characters. -/
def noAdjWs : List Char → Bool
  | c :: d :: r => (!(pyIsSpace c && pyIsSpace d)) && noAdjWs (d :: r)
  | _ => true

theorem isCanonChar_not_ws (c : Char) (h : isCanonChar c = true) :
    pyIsSpace c = false := by
  simp only [isCanonChar, Bool.or_eq_true, Bool.and_eq_true,
    decide_eq_true_eq] at h
  simp only [pyIsSpace, Bool.or_eq_false_iff, Bool.and_eq_false_iff,
    decide_eq_false_iff_not]
  omega

theorem toLowerChar_fixed (c : Char) (h : isCanonChar c = true ∨ c = ' ') :
    toLowerChar c = c := by
  rcases h with h | rfl
  · unfold toLowerChar
    rw [if_neg]
    simp only [isCanonChar, Bool.or_eq_true, Bool.and_eq_true,
      decide_eq_true_eq] at h
    omega
  · rfl

theorem maskChar_fixed (c : Char) (h : isCanonChar c = true ∨ c = ' ') :
    maskChar c = c := by
  rcases h with h | rfl
  · unfold maskChar
    rw [if_pos]
    unfold keepChar
    rw [h]
    rfl
  · rfl

theorem map_fix {f : Char → Char} (l : List Char) (h : ∀ c ∈ l, f c = c) :
    l.map f = l := by
  induction l with
  | nil => rfl
  | cons a r ih =>
    rw [List.map_cons, h a (by simp), ih (fun c hc => h c (by simp [hc]))]

theorem mem_collapseWs (l : List Char) : ∀ b c, c ∈ collapseWs l b →
    c = ' ' ∨ (c ∈ l ∧ pyIsSpace c = false) := by
  induction l with
  | nil => intro b c h; simp [collapseWs] at h
  | cons a r ih =>
    intro b c h
    by_cases ha : pyIsSpace a = true
    · cases b with
      | true =>
        rw [show collapseWs (a :: r) true = collapseWs r true from by
          simp [collapseWs, ha]] at h
        rcases ih true c h with h | ⟨h1, h2⟩
        · exact Or.inl h
        · exact Or.inr ⟨List.mem_cons_of_mem a h1, h2⟩
      | false =>
        rw [show collapseWs (a :: r) false = ' ' :: collapseWs r true from by
          simp [collapseWs, ha]] at h
        rcases List.mem_cons.mp h with h | h
        · exact Or.inl h
        · rcases ih true c h with h | ⟨h1, h2⟩
          · exact Or.inl h
          · exact Or.inr ⟨List.mem_cons_of_mem a h1, h2⟩
    · rw [show collapseWs (a :: r) b = a :: collapseWs r false from by
        simp [collapseWs, ha]] at h
      rcases List.mem_cons.mp h with rfl | h
      · exact Or.inr ⟨List.mem_cons_self _ _, by simpa using ha⟩
      · rcases ih false c h with h | ⟨h1, h2⟩
        · exact Or.inl h
        · exact Or.inr ⟨List.mem_cons_of_mem a h1, h2⟩

theorem collapseWs_headNotWs (l : List Char) :
    headNotWs (collapseWs l true) = true := by
  induction l with
  | nil => rfl
  | cons a r ih =>
    by_cases ha : pyIsSpace a = true
    · rw [show collapseWs (a :: r) true = collapseWs r true from by
        simp [collapseWs, ha]]
      exact ih
    · rw [show collapseWs (a :: r) true = a :: collapseWs r false from by
        simp [collapseWs, ha]]
      simpa [headNotWs] using ha

theorem noAdjWs_cons_of (c : Char) (l : List Char)
    (h1 : pyIsSpace c = false ∨ headNotWs l = true) (h2 : noAdjWs l = true) :
    noAdjWs (c :: l) = true := by
  cases l with
  | nil => rfl
  | cons d r =>
    unfold noAdjWs
    rcases h1 with h1 | h1
    · simp [h1, h2]
    · have hd : pyIsSpace d = false := by simpa [headNotWs] using h1
      simp [hd, h2]

theorem noAdjWs_tail (c : Char) (l : List Char) (h : noAdjWs (c :: l) = true) :
    noAdjWs l = true := by
  cases l with
  | nil => rfl
  | cons d r =>
    unfold noAdjWs at h
    exact (Bool.and_eq_true_iff.mp h).2

theorem noAdjWs_head (c : Char) (l : List Char) (h : noAdjWs (c :: l) = true)
    (hc : pyIsSpace c = true) : headNotWs l = true := by
  cases l with
  | nil => rfl
  | cons d r =>
    unfold noAdjWs at h
    have := (Bool.and_eq_true_iff.mp h).1
    simp only [hc, Bool.true_and, Bool.not_eq_true'] at this
    simpa [headNotWs] using this

theorem collapseWs_noAdj (l : List Char) : ∀ b, noAdjWs (collapseWs l b) = true := by
  induction l with
  | nil => intro b; rfl
  | cons a r ih =>
    intro b
    by_cases ha : pyIsSpace a = true
    · cases b with
      | true =>
        rw [show collapseWs (a :: r) true = collapseWs r true from by
          simp [collapseWs, ha]]
        exact ih true
      | false =>
        rw [show collapseWs (a :: r) false = ' ' :: collapseWs r true from by
          simp [collapseWs, ha]]
        exact noAdjWs_cons_of _ _ (Or.inr (collapseWs_headNotWs r)) (ih true)
    · rw [show collapseWs (a :: r) b = a :: collapseWs r false from by
        simp [collapseWs, ha]]
      exact noAdjWs_cons_of _ _ (Or.inl (by simpa using ha)) (ih false)

theorem dropWhileWs_headNotWs (l : List Char) :
    headNotWs (l.dropWhile pyIsSpace) = true := by
  induction l with
  | nil => rfl
  | cons a r ih =>
    by_cases ha : pyIsSpace a = true
    · simpa [List.dropWhile_cons, ha] using ih
    · simp [List.dropWhile_cons, ha, headNotWs]

theorem dropWhileWs_noAdj (l : List Char) (h : noAdjWs l = true) :
    noAdjWs (l.dropWhile pyIsSpace) = true := by
  induction l with
  | nil => exact h
  | cons a r ih =>
    by_cases ha : pyIsSpace a = true
    · rw [List.dropWhile_cons_of_pos (by simpa using ha)]
      exact ih (noAdjWs_tail a r h)
    · rwa [List.dropWhile_cons_of_neg (by simpa using ha)]

theorem mem_dropTrailWs (l : List Char) (c : Char) (h : c ∈ dropTrailWs l) :
    c ∈ l := by
  induction l with
  | nil => simp [dropTrailWs] at h
  | cons a r ih =>
    unfold dropTrailWs at h
    by_cases he : (dropTrailWs r).isEmpty
    · rw [if_pos he] at h
      by_cases ha : pyIsSpace a = true
      · rw [if_pos ha] at h
        simp at h
      · rw [if_neg ha] at h
        simp at h
        simp [h]
    · rw [if_neg he] at h
      rcases List.mem_cons.mp h with rfl | h
      · exact List.mem_cons_self _ _
      · exact List.mem_cons_of_mem a (ih h)

theorem dropTrailWs_lastNotWs (l : List Char) :
    lastNotWs (dropTrailWs l) = true := by
  induction l with
  | nil => rfl
  | cons a r ih =>
    unfold dropTrailWs
    by_cases he : (dropTrailWs r).isEmpty
    · rw [if_pos he]
      by_cases ha : pyIsSpace a = true
      · rw [if_pos ha]; rfl
      · rw [if_neg ha]
        simpa [lastNotWs] using ha
    · rw [if_neg he]
      obtain ⟨d, t, hd⟩ : ∃ d t, dropTrailWs r = d :: t := by
        cases hh : dropTrailWs r with
        | nil => rw [hh] at he; simp at he
        | cons d t => exact ⟨d, t, rfl⟩
      rw [hd, show lastNotWs (a :: d :: t) = lastNotWs (d :: t) from rfl, ← hd]
      exact ih

theorem dropTrailWs_headNotWs (l : List Char) (h : headNotWs l = true) :
    headNotWs (dropTrailWs l) = true := by
  cases l with
  | nil => rfl
  | cons a r =>
    unfold dropTrailWs
    by_cases he : (dropTrailWs r).isEmpty
    · rw [if_pos he]
      by_cases ha : pyIsSpace a = true
      · rw [if_pos ha]; rfl
      · rw [if_neg ha]
        simpa [headNotWs] using h
    · rw [if_neg he]
      simpa [headNotWs] using h

theorem dropTrailWs_noAdj (l : List Char) (h : noAdjWs l = true) :
    noAdjWs (dropTrailWs l) = true := by
  induction l with
  | nil => rfl
  | cons a r ih =>
    unfold dropTrailWs
    by_cases he : (dropTrailWs r).isEmpty
    · rw [if_pos he]
      by_cases ha : pyIsSpace a = true
      · rw [if_pos ha]; rfl
      · rw [if_neg ha]; rfl
    · rw [if_neg he]
      apply noAdjWs_cons_of
      · by_cases ha : pyIsSpace a = true
        · exact Or.inr (dropTrailWs_headNotWs r (noAdjWs_head a r h ha))
        · exact Or.inl (by simpa using ha)
      · exact ih (noAdjWs_tail a r h)

theorem collapseWs_id (l : List Char) : ∀ b,
    (∀ c ∈ l, pyIsSpace c = true → c = ' ') → noAdjWs l = true →
    (b = true → headNotWs l = true) → collapseWs l b = l := by
  induction l with
  | nil => intro b _ _ _; rfl
  | cons a r ih =>
    intro b hsp hadj hb
    by_cases ha : pyIsSpace a = true
    · have ha' : a = ' ' := hsp a (List.mem_cons_self _ _) ha
      cases b with
      | true =>
        have := hb rfl
        rw [show headNotWs (a :: r) = !pyIsSpace a from rfl, ha] at this
        simp at this
      | false =>
        rw [show collapseWs (a :: r) false = ' ' :: collapseWs r true from by
          simp [collapseWs, ha]]
        rw [ha']
        congr 1
        exact ih true (fun c hc => hsp c (List.mem_cons_of_mem a hc))
          (noAdjWs_tail a r hadj) (fun _ => noAdjWs_head a r hadj ha)
    · rw [show collapseWs (a :: r) b = a :: collapseWs r false from by
        simp [collapseWs, ha]]
      congr 1
      exact ih false (fun c hc => hsp c (List.mem_cons_of_mem a hc))
        (noAdjWs_tail a r hadj) (fun h => by cases h)

theorem dropWhileWs_id (l : List Char) (h : headNotWs l = true) :
    l.dropWhile pyIsSpace = l := by
  cases l with
  | nil => rfl
  | cons a r =>
    rw [List.dropWhile_cons_of_neg]
    simpa [headNotWs] using h

theorem dropTrailWs_id (l : List Char) (h : lastNotWs l = true) :
    dropTrailWs l = l := by
  induction l with
  | nil => rfl
  | cons a r ih =>
    cases r with
    | nil =>
      have ha : pyIsSpace a = false := by simpa [lastNotWs] using h
      unfold dropTrailWs
      rw [if_pos (by rfl), if_neg (by simp [ha])]
    | cons d t =>
      have h' : lastNotWs (d :: t) = true := h
      have hne : dropTrailWs (d :: t) = d :: t := ih h'
      unfold dropTrailWs
      rw [hne]
      rw [if_neg (by simp)]

theorem clean_text_canon (s : String) :
    (∀ c ∈ (clean_text s).data, isCanonChar c = true ∨ c = ' ') ∧
    noAdjWs (clean_text s).data = true ∧
    headNotWs (clean_text s).data = true ∧
    lastNotWs (clean_text s).data = true := by
  have hkeep : ∀ c ∈ (s.data.map toLowerChar).map maskChar, keepChar c = true := by
    intro c hc
    rw [List.mem_map] at hc
    obtain ⟨d, _, rfl⟩ := hc
    unfold maskChar
    by_cases h : keepChar d = true
    · rwa [if_pos h]
    · rw [if_neg h]
      rfl
  refine ⟨?_, ?_, ?_, ?_⟩
  · intro c hc
    have hc' : c ∈ pyStrip (collapseWs ((s.data.map toLowerChar).map maskChar) false) := hc
    unfold pyStrip at hc'
    have hc2 := mem_dropTrailWs _ _ hc'
    have hc3 : c ∈ collapseWs ((s.data.map toLowerChar).map maskChar) false := by
      have hsub := List.dropWhile_sublist (l := collapseWs ((s.data.map toLowerChar).map maskChar) false) (p := pyIsSpace)
      exact hsub.subset hc2
    rcases mem_collapseWs _ _ _ hc3 with rfl | ⟨h1, h2⟩
    · exact Or.inr rfl
    · left
      have := hkeep c h1
      unfold keepChar at this
      rw [h2] at this
      simpa using this
  · exact dropTrailWs_noAdj _ (dropWhileWs_noAdj _ (collapseWs_noAdj _ false))
  · exact dropTrailWs_headNotWs _ (dropWhileWs_headNotWs _)
  · exact dropTrailWs_lastNotWs _

theorem clean_text_id_of_canon (l : List Char)
    (hmem : ∀ c ∈ l, isCanonChar c = true ∨ c = ' ')
    (hadj : noAdjWs l = true) (hhead : headNotWs l = true)
    (hlast : lastNotWs l = true) :
    clean_text ⟨l⟩ = ⟨l⟩ := by
  unfold clean_text
  have h1 : l.map toLowerChar = l :=
    map_fix l fun c hc => toLowerChar_fixed c (hmem c hc)
  have h2 : l.map maskChar = l :=
    map_fix l fun c hc => maskChar_fixed c (hmem c hc)
  have hsp : ∀ c ∈ l, pyIsSpace c = true → c = ' ' := by
    intro c hc hws
    rcases hmem c hc with h | rfl
    · rw [isCanonChar_not_ws c h] at hws
      cases hws
    · rfl
  have h3 : collapseWs l false = l :=
    collapseWs_id l false hsp hadj (fun h => by cases h)
  show String.mk (pyStrip (collapseWs ((l.map toLowerChar).map maskChar) false)) = ⟨l⟩
  rw [h1, h2, h3]
  unfold pyStrip
  rw [dropWhileWs_id l hhead, dropTrailWs_id l hlast]

/-- C9. The canonicalizer is idempotent: canonicalizing an already
canonicalized string changes nothing — `clean_text (clean_text s) =
clean_text s` for every string `s`. -/
theorem C9_clean_text_idempotent (s : String) :
    clean_text (clean_text s) = clean_text s := by
  obtain ⟨h1, h2, h3, h4⟩ := clean_text_canon s
  exact clean_text_id_of_canon (clean_text s).data h1 h2 h3 h4
